import Mathlib

/-!
Verification of the group-expense settlement engine of Finance-Buddy-Notebook
(`record_group_debts` and its collaborator `add_debt_tool`,
src/backend/tools.py).

Modelling conventions:
* Python floats are modelled as exact rationals (`ℚ`); `round(x, 2)` is
  modelled as round-half-to-even on cents, matching Python's `round`.
* Python strings are modelled as Lean `String`; `str.strip` / `str.split` /
  `str.lower` and string comparison are modelled character-wise below
  (Python compares strings lexicographically by code point).
* A Python function that can raise is modelled in `Except PyErr`; each
  `return` of a result string is modelled by a constructor of `RGDResult`
  carrying the data interpolated into that string.
* The engine's calls to `add_debt_tool` are collected, in call order, in the
  returned edge list; the source discards `add_debt_tool`'s returned string
  (tools.py lines 240-247 and 261-268), so no sink outcome flows back into
  the engine.
-/

attribute [local semireducible] Rat.mul Rat.add Rat.sub Rat.inv

instance {ε α : Type} [DecidableEq ε] [DecidableEq α] : DecidableEq (Except ε α) :=
  fun x y =>
  match x, y with
  | .error a, .error b =>
    if h : a = b then isTrue (by rw [h]) else isFalse (fun hc => h (Except.error.inj hc))
  | .error _, .ok _ => isFalse (fun hc => Except.noConfusion hc)
  | .ok _, .error _ => isFalse (fun hc => Except.noConfusion hc)
  | .ok a, .ok b =>
    if h : a = b then isTrue (by rw [h]) else isFalse (fun hc => h (Except.ok.inj hc))

/-- A single debt edge, i.e. the argument tuple of one `add_debt_tool` call
(tools.py line 97); the timestamp column is produced inside the sink and
carries no engine data. -/
structure DebtEdge where
  debtor : String
  creditor : String
  amount : ℚ
  description : String
  status : String
deriving DecidableEq, Repr

/-- Python exceptions that `record_group_debts` can let escape. -/
inductive PyErr where
  | valueError (culprit : String)
  | zeroDivisionError
deriving DecidableEq, Repr

/-- The result strings of `record_group_debts`, one constructor per `return`
site (tools.py lines 173, 184, 192, 194, 223, 231, 253, 270), carrying the
data interpolated into the string. -/
inductive RGDResult where
  | notInvolved
  | errFairSharesRequired
  | errNoFairShare (p : String)
  | errInvalidSplitMode
  | alreadySettled
  | noOneOwesMe
  | meOwesNoOne
  | success (callsMade : ℕ)
deriving DecidableEq, Repr

/-- The reserved self identity (tools.py line 165). -/
def ME_NAME : String := "Me"

/-- The three `ERROR:` return sites of the share-validation phase
(tools.py lines 184, 192, 194). -/
def isValidationError : RGDResult → Bool
  | .errFairSharesRequired => true
  | .errNoFairShare _ => true
  | .errInvalidSplitMode => true
  | _ => false

/-! ### Python string and number primitives, modelled character-wise -/

/-- `str.strip()` on a character list. -/
def trimChars (l : List Char) : List Char :=
  ((l.dropWhile Char.isWhitespace).reverse.dropWhile Char.isWhitespace).reverse

/-- `str.split(sep)` for a one-character separator: split at every occurrence. -/
def splitAtChar (sep : Char) : List Char → List (List Char)
  | [] => [[]]
  | c :: rest =>
    let r := splitAtChar sep rest
    if c = sep then [] :: r
    else
      match r with
      | [] => [[c]]
      | g :: gs => (c :: g) :: gs

/-- `[c.strip() for c in s.split(",") if c.strip()]` (tools.py lines 168-169,
186, 201): split on commas, strip each token, drop the empty ones. -/
def parseNames (s : String) : List String :=
  ((splitAtChar ',' s.toList).map (fun cs => String.mk (trimChars cs))).filter
    (fun t => t ≠ "")

/-- `str.lower()` (ASCII, which covers the literals the engine compares). -/
def pyLower (s : String) : String := String.mk (s.toList.map Char.toLower)

def digitsToNat (l : List Char) : ℕ :=
  l.foldl (fun a c => 10 * a + (c.toNat - 48)) 0

/-- Modelled from Python's `float(str)` for the plain decimal literals the
engine's share specs use: optional sign, digits around at most one dot;
anything else raises `ValueError`. -/
def pyFloat (s : String) : Except PyErr ℚ :=
  let t := trimChars s.toList
  let sg : ℚ := if t.head? = some '-' then -1 else 1
  let body := if t.head? = some '-' ∨ t.head? = some '+' then t.tail else t
  match splitAtChar '.' body with
  | [a] =>
    if !a.isEmpty && a.all Char.isDigit then
      .ok (sg * (digitsToNat a : ℚ))
    else .error (.valueError s)
  | [a, b] =>
    if !(a ++ b).isEmpty && (a ++ b).all Char.isDigit then
      .ok (sg * ((digitsToNat a : ℚ) + (digitsToNat b : ℚ) / (10 : ℚ) ^ b.length))
    else .error (.valueError s)
  | _ => .error (.valueError s)

/-- `name, val = [x.strip() for x in part.split(":", 1)]` (tools.py lines 188,
203): split at the FIRST colon only; on a colonless entry the unpacking
raises `ValueError`. -/
def splitPair (part : String) : Except PyErr (String × String) :=
  match (part.toList.span (fun c => c != ':')).2 with
  | [] => .error (.valueError part)
  | _ :: rest =>
    .ok (String.mk (trimChars (part.toList.span (fun c => c != ':')).1),
         String.mk (trimChars rest))

/-- A Python dict keyed by names: lookup of the last assignment, `none` when
the key was never assigned. -/
def emptyDict : String → Option ℚ := fun _ => none

def dictSet (d : String → Option ℚ) (k : String) (v : ℚ) : String → Option ℚ :=
  fun x => if x = k then some v else d x

/-- The parse loop `for part in parts: name, val = ...; d[name] = float(val)`
(tools.py lines 187-189 and 202-204). -/
def parseSharesInto (d : String → Option ℚ) :
    List String → Except PyErr (String → Option ℚ)
  | [] => .ok d
  | part :: rest =>
    match splitPair part with
    | .error e => .error e
    | .ok (name, val) =>
      match pyFloat val with
      | .error e => .error e
      | .ok v => parseSharesInto (dictSet d name v) rest

/-- Python division, which raises `ZeroDivisionError` on a zero divisor. -/
def pyDiv (a b : ℚ) : Except PyErr ℚ :=
  if b = 0 then .error .zeroDivisionError else .ok (a / b)

/-- The floor of a rational, written so that the kernel can evaluate it
(`Int` division rounds toward minus infinity). -/
def ratFloor (x : ℚ) : ℤ := x.num / (x.den : ℤ)

/-- Round-half-to-even to an integer, Python's `round`. -/
def roundHalfEven (x : ℚ) : ℤ :=
  let f := ratFloor x
  let r := x - (f : ℚ)
  if r < 1 / 2 then f
  else if 1 / 2 < r then f + 1
  else if f % 2 = 0 then f else f + 1

/-- `round(x, 2)` (tools.py lines 243, 264). -/
def pyRound2 (x : ℚ) : ℚ := (roundHalfEven (x * 100) : ℚ) / 100

/-! ### String ordering (Python compares strings by code point) -/

/-- Strict lexicographic order on character lists by code point. -/
def lexLt : List Char → List Char → Bool
  | [], [] => false
  | [], _ :: _ => true
  | _ :: _, [] => false
  | a :: as, b :: bs => if a = b then lexLt as bs else decide (a < b)

/-- Python's `<` on strings. -/
def strLt (a b : String) : Bool := lexLt a.toList b.toList

/-- Python's `<=` on strings (the order is total). -/
def strLe (a b : String) : Bool := !strLt b a

/-- One step of insertion sort with respect to `strLe`. -/
def insertName (x : String) : List String → List String
  | [] => [x]
  | y :: ys => if strLe x y then x :: y :: ys else y :: insertName x ys

/-- Insertion sort with respect to `strLe`; on a duplicate-free list this is
what Python's `sorted` returns. -/
def sortNames : List String → List String
  | [] => []
  | x :: xs => insertName x (sortNames xs)

/-! ### The engine stages -/

/-- `participants = sorted(set(creditor_list + debtor_list))` (tools.py 170). -/
def sortParticipants (creditor_list debtor_list : List String) : List String :=
  sortNames (creditor_list ++ debtor_list).dedup

/-- Stage 2, tools.py lines 176-194: the fair-share dict, or an early `ERROR:`
return (`Sum.inl`), or an escaping exception. -/
def fairStage (split_mode fair_shares : String) (total_amount : ℚ)
    (participants : List String) :
    Except PyErr (RGDResult ⊕ (String → Option ℚ)) :=
  if pyLower split_mode = "equal" then
    match pyDiv total_amount (participants.length : ℚ) with
    | .error e => .error e
    | .ok per_person =>
      .ok (.inr (fun p => if p ∈ participants then some per_person else none))
  else if pyLower split_mode = "custom" then
    if fair_shares = "" then .ok (.inl .errFairSharesRequired)
    else
      match parseSharesInto emptyDict (parseNames fair_shares) with
      | .error e => .error e
      | .ok fair =>
        match participants.find? (fun p => (fair p).isNone) with
        | some p => .ok (.inl (.errNoFairShare p))
        | none => .ok (.inr fair)
  else .ok (.inl .errInvalidSplitMode)

/-- Stage 3, tools.py lines 196-214: the paid amounts as a total function
(`paid` is a `defaultdict(float)`, so missing keys read 0). -/
def paidStage (split_mode paid_shares : String) (total_amount : ℚ)
    (creditor_list participants : List String) (fair : String → Option ℚ) :
    Except PyErr (String → ℚ) :=
  if paid_shares ≠ "" then
    match parseSharesInto emptyDict (parseNames paid_shares) with
    | .error e => .error e
    | .ok d => .ok (fun p => (d p).getD 0)
  else if pyLower split_mode = "equal" then
    match pyDiv total_amount (creditor_list.length : ℚ) with
    | .error e => .error e
    | .ok per_creditor_paid =>
      .ok (fun p => if p ∈ creditor_list then per_creditor_paid else 0)
  else
    .ok (fun p => if p ∈ participants then (fair p).getD 0 else 0)

/-- Stage 4, tools.py lines 217-219: `net[p] = paid[p] - fair.get(p, 0.0)`. -/
def netFun (fair : String → Option ℚ) (paid : String → ℚ) : String → ℚ :=
  fun p => paid p - (fair p).getD 0

/-- `sum(-net[p] for p in participants if net[p] < 0)` (tools.py line 229). -/
def owingSum (participants : List String) (net : String → ℚ) : ℚ :=
  ((participants.filter (fun p => decide (net p < 0))).map (fun p => -net p)).sum

/-- `sum(net[p] for p in participants if net[p] > 0)` (tools.py line 251). -/
def creditSum (participants : List String) (net : String → ℚ) : ℚ :=
  ((participants.filter (fun p => decide (0 < net p))).map net).sum

/-- The Case A loop (tools.py lines 233-247): one edge `(p, Me)` per
participant `p ≠ Me` with `net p < 0` whose proportional share exceeds
0.01. -/
def genEdgesA (net : String → ℚ) (net_me total_owing : ℚ)
    (description status : String) : List String → List DebtEdge
  | [] => []
  | p :: rest =>
    if p = ME_NAME then genEdgesA net net_me total_owing description status rest
    else if net p < 0 then
      if 1 / 100 < net_me * (-net p / total_owing) then
        { debtor := p, creditor := ME_NAME,
          amount := pyRound2 (net_me * (-net p / total_owing)),
          description := description, status := status } ::
          genEdgesA net net_me total_owing description status rest
      else genEdgesA net net_me total_owing description status rest
    else genEdgesA net net_me total_owing description status rest

/-- The Case B loop (tools.py lines 255-268): one edge `(Me, p)` per
participant `p ≠ Me` with `net p > 0` whose proportional share exceeds
0.01. -/
def genEdgesB (net : String → ℚ) (net_me total_credit : ℚ)
    (description status : String) : List String → List DebtEdge
  | [] => []
  | p :: rest =>
    if p = ME_NAME then genEdgesB net net_me total_credit description status rest
    else if 0 < net p then
      if 1 / 100 < -net_me * (net p / total_credit) then
        { debtor := ME_NAME, creditor := p,
          amount := pyRound2 (-net_me * (net p / total_credit)),
          description := description, status := status } ::
          genEdgesB net net_me total_credit description status rest
      else genEdgesB net net_me total_credit description status rest
    else genEdgesB net net_me total_credit description status rest

/-- Stages 4-5, tools.py lines 216-270: the returned result together with the
list of `add_debt_tool` calls, in call order (`calls_made` is incremented
exactly once per call, so it equals the length of that list). -/
def settleStage (participants : List String) (fair : String → Option ℚ)
    (paid : String → ℚ) (description status : String) :
    RGDResult × List DebtEdge :=
  let net := netFun fair paid
  let net_me := net ME_NAME
  if |net_me| < 1 / 1000000 then (.alreadySettled, [])
  else if 0 < net_me then
    if owingSum participants net ≤ 0 then (.noOneOwesMe, [])
    else
      (.success (genEdgesA net net_me (owingSum participants net)
          description status participants).length,
       genEdgesA net net_me (owingSum participants net)
          description status participants)
  else
    if creditSum participants net ≤ 0 then (.meOwesNoOne, [])
    else
      (.success (genEdgesB net net_me (creditSum participants net)
          description status participants).length,
       genEdgesB net net_me (creditSum participants net)
          description status participants)

/-- `record_group_debts` (tools.py lines 128-270): the returned result and
the `add_debt_tool` calls it makes, or the escaping Python exception. -/
def recordGroupDebts (creditors debtors : String) (total_amount : ℚ)
    (description status split_mode fair_shares paid_shares : String) :
    Except PyErr (RGDResult × List DebtEdge) :=
  let creditor_list := parseNames creditors
  let debtor_list := parseNames debtors
  let participants := sortParticipants creditor_list debtor_list
  if ME_NAME ∈ participants then
    match fairStage split_mode fair_shares total_amount participants with
    | .error e => .error e
    | .ok (.inl r) => .ok (r, [])
    | .ok (.inr fair) =>
      match paidStage split_mode paid_shares total_amount creditor_list
          participants fair with
      | .error e => .error e
      | .ok paid =>
        .ok (settleStage participants fair paid description status)
  else .ok (.notInvolved, [])

/-- The run up to and including stage 4: `some (participants, net)` when the
net positions are computed, `none` when the call returns or raises earlier. -/
def netStage (creditors debtors : String) (total_amount : ℚ)
    (split_mode fair_shares paid_shares : String) :
    Option (List String × (String → ℚ)) :=
  let creditor_list := parseNames creditors
  let debtor_list := parseNames debtors
  let participants := sortParticipants creditor_list debtor_list
  if ME_NAME ∈ participants then
    match fairStage split_mode fair_shares total_amount participants with
    | .ok (.inr fair) =>
      match paidStage split_mode paid_shares total_amount creditor_list
          participants fair with
      | .ok paid => some (participants, netFun fair paid)
      | .error _ => none
    | _ => none
  else none

/-- The sum of the net positions over the participant set. -/
def netSumOf (creditors debtors : String) (total_amount : ℚ)
    (split_mode fair_shares paid_shares : String) : Option ℚ :=
  (netStage creditors debtors total_amount split_mode fair_shares
    paid_shares).map (fun x => (x.1.map x.2).sum)

/-- The self identity's net position. -/
def netMeOf (creditors debtors : String) (total_amount : ℚ)
    (split_mode fair_shares paid_shares : String) : Option ℚ :=
  (netStage creditors debtors total_amount split_mode fair_shares
    paid_shares).map (fun x => x.2 ME_NAME)

/-- `add_debt_tool` (tools.py lines 97-126) as seen by its caller: `true` iff
the row was persisted. `dbOk` is the database outcome; every exception is
caught inside the tool and turned into an `ERROR:` string, i.e. `false`. -/
def addDebtToolOk (dbOk : Bool) (e : DebtEdge) : Bool :=
  if e.amount ≤ 0 then false else dbOk

/-- The edges of `es` actually persisted when the sink outcome of the `k`-th
call is `dbOk k`. -/
def persistedEdges (dbOk : ℕ → Bool) (es : List DebtEdge) : List DebtEdge :=
  (es.enum.filter (fun ie => addDebtToolOk (dbOk ie.1) ie.2)).map (fun ie => ie.2)

/-- The non-`Me` endpoint of an emitted edge. -/
def counterpart (e : DebtEdge) : String :=
  if e.debtor = ME_NAME then e.creditor else e.debtor

/-- The self identity is exactly one endpoint of the edge. -/
def selfOnlyEdge (e : DebtEdge) : Prop :=
  (e.debtor = ME_NAME ∧ e.creditor ≠ ME_NAME) ∨
    (e.creditor = ME_NAME ∧ e.debtor ≠ ME_NAME)

instance (e : DebtEdge) : Decidable (selfOnlyEdge e) := by
  unfold selfOnlyEdge
  infer_instance

/-- The counterparts of the edges appear in strictly increasing
code-point-lexicographic order (hence each counterpart at most once). -/
def sortedByCounterpart (es : List DebtEdge) : Prop :=
  (es.map counterpart).Pairwise (fun a b => strLt a b = true)

/-- The call ended in one of the three validation `ERROR:` returns: a
validation error result with no sink call made. -/
def isValidationOutcome (x : Except PyErr (RGDResult × List DebtEdge)) : Bool :=
  match x with
  | .ok (r, es) => isValidationError r && es.isEmpty
  | .error _ => false

/-- Participant `p` has no entry in the share dict `d`
(`p not in fair`, tools.py line 191). -/
def missingShare (d : String → Option ℚ) (p : String) : Bool :=
  (d p).isNone

example : parseNames " Me, John ,,Sarah" = ["Me", "John", "Sarah"] := by decide
example : sortParticipants ["Me"] ["Sarah", "John"] = ["John", "Me", "Sarah"] := by
  decide
example : pyFloat " 20.5 " = .ok (41 / 2) := by decide
example : pyFloat "x2" = .error (.valueError "x2") := by decide
example : splitPair " Me : 3:4 " = .ok ("Me", "3:4") := by decide
example : pyRound2 (3 / 250) = 1 / 100 := by decide
example : recordGroupDebts "Me" "John, Sarah" 30 "d" "unsettled" "equal" "" "" =
    .ok (.success 2,
      [⟨"John", "Me", 10, "d", "unsettled"⟩,
       ⟨"Sarah", "Me", 10, "d", "unsettled"⟩]) := by decide
example : recordGroupDebts "John" "Me" 20 "d" "unsettled" "equal" "" "" =
    .ok (.success 1, [⟨"Me", "John", 10, "d", "unsettled"⟩]) := by decide
example : recordGroupDebts "John" "Sarah" 50 "d" "unsettled" "equal" "" "" =
    .ok (.notInvolved, []) := by decide
example : recordGroupDebts "Me" "John" 100 "d" "unsettled" "custom"
    "Me:60, John:40" "" = .ok (.alreadySettled, []) := by decide
example : recordGroupDebts "" "Me, John" 30 "d" "unsettled" "equal" "" "" =
    .error .zeroDivisionError := by decide

/-! ### Order lemmas for the participant sort -/

theorem lexLt_irrefl : ∀ l : List Char, lexLt l l = false
  | [] => rfl
  | c :: cs => by simp [lexLt, lexLt_irrefl cs]

theorem eq_of_lexLt_false : ∀ {a b : List Char}, lexLt a b = false →
    lexLt b a = false → a = b
  | [], [], _, _ => rfl
  | [], _ :: _, hab, _ => by simp [lexLt] at hab
  | _ :: _, [], _, hba => by simp [lexLt] at hba
  | x :: xs, y :: ys, hab, hba => by
    by_cases hxy : x = y
    · subst hxy
      simp only [lexLt, if_pos rfl] at hab hba
      rw [eq_of_lexLt_false hab hba]
    · simp only [lexLt, if_neg hxy, if_neg (Ne.symm hxy), decide_eq_false_iff_not]
        at hab hba
      exact absurd (le_antisymm (not_lt.mp hba) (not_lt.mp hab)) hxy

theorem lexLt_trans : ∀ (a b c : List Char), lexLt a b = true →
    lexLt b c = true → lexLt a c = true
  | [], [], _, hab, _ => by simp [lexLt] at hab
  | [], _ :: _, [], _, hbc => by simp [lexLt] at hbc
  | [], _ :: _, _ :: _, _, _ => by simp [lexLt]
  | _ :: _, [], _, hab, _ => by simp [lexLt] at hab
  | _ :: _, _ :: _, [], _, hbc => by simp [lexLt] at hbc
  | x :: xs, y :: ys, z :: zs, hab, hbc => by
    by_cases hxy : x = y
    · subst hxy
      by_cases hxz : x = z
      · subst hxz
        simp only [lexLt, if_pos rfl] at hab hbc ⊢
        exact lexLt_trans xs ys zs hab hbc
      · by_cases hyz : x = z
        · exact absurd hyz hxz
        · simp only [lexLt, if_pos rfl, if_neg hxz] at hab hbc ⊢
          exact hbc
    · by_cases hyz : y = z
      · subst hyz
        simp only [lexLt, if_neg hxy] at hab ⊢
        exact hab
      · have hxlty : x < y := by
          have := hab
          simp only [lexLt, if_neg hxy, decide_eq_true_eq] at this
          exact this
        have hyltz : y < z := by
          have := hbc
          simp only [lexLt, if_neg hyz, decide_eq_true_eq] at this
          exact this
        have hxz : x ≠ z := ne_of_lt (lt_trans hxlty hyltz)
        simp only [lexLt, if_neg hxz, decide_eq_true_eq]
        exact lt_trans hxlty hyltz

theorem strLt_irrefl (a : String) : strLt a a = false := lexLt_irrefl _

theorem strLt_trans {a b c : String} (h1 : strLt a b = true)
    (h2 : strLt b c = true) : strLt a c = true :=
  lexLt_trans _ _ _ h1 h2

theorem strLt_of_ne_of_asymm {a b : String} (hne : a ≠ b)
    (h : strLt b a = false) : strLt a b = true := by
  cases hab : strLt a b with
  | true => rfl
  | false =>
    exact absurd (String.toList_inj.mp (eq_of_lexLt_false hab h)) hne

theorem ne_of_strLt {a b : String} (h : strLt a b = true) : a ≠ b := by
  intro he
  subst he
  rw [strLt_irrefl] at h
  exact Bool.false_ne_true h

theorem strLe_false_lt {x y : String} (h : strLe x y = false) :
    strLt y x = true := by
  simpa [strLe] using h

theorem strLe_true_not_lt {x y : String} (h : strLe x y = true) :
    strLt y x = false := by
  simpa [strLe] using h

theorem mem_insertName {a x : String} : ∀ {l : List String},
    a ∈ insertName x l ↔ a = x ∨ a ∈ l
  | [] => by simp [insertName]
  | y :: ys => by
    by_cases h : strLe x y
    · simp [insertName, h, List.mem_cons]
    · simp only [insertName, if_neg h, List.mem_cons,
        mem_insertName (l := ys)]
      tauto

theorem mem_sortNames {a : String} : ∀ {l : List String},
    a ∈ sortNames l ↔ a ∈ l
  | [] => Iff.rfl
  | x :: xs => by
    simp [sortNames, mem_insertName, @mem_sortNames a xs, List.mem_cons]

theorem pairwise_insertName {x : String} : ∀ {l : List String}, x ∉ l →
    l.Pairwise (fun a b => strLt a b = true) →
    (insertName x l).Pairwise (fun a b => strLt a b = true)
  | [], _, _ => by simp [insertName]
  | y :: ys, hx, hl => by
    have hxy : x ≠ y := fun he => hx (he ▸ List.mem_cons_self x ys)
    have hxys : x ∉ ys := fun hm => hx (List.mem_cons_of_mem y hm)
    rw [List.pairwise_cons] at hl
    by_cases h : strLe x y
    · rw [insertName, if_pos h]
      refine List.pairwise_cons.mpr ⟨?_, List.pairwise_cons.mpr hl⟩
      intro b hb
      rcases List.mem_cons.mp hb with hb | hb
      · subst hb
        exact strLt_of_ne_of_asymm hxy (strLe_true_not_lt h)
      · exact strLt_trans (strLt_of_ne_of_asymm hxy (strLe_true_not_lt h))
          (hl.1 b hb)
    · rw [insertName, if_neg h]
      refine List.pairwise_cons.mpr ⟨?_, pairwise_insertName hxys hl.2⟩
      intro b hb
      rcases mem_insertName.mp hb with hb | hb
      · subst hb
        exact strLe_false_lt (by simpa using h)
      · exact hl.1 b hb

theorem pairwise_sortNames : ∀ {l : List String}, l.Nodup →
    (sortNames l).Pairwise (fun a b => strLt a b = true)
  | [], _ => List.Pairwise.nil
  | x :: xs, h => by
    rw [List.nodup_cons] at h
    exact pairwise_insertName (fun hm => h.1 (mem_sortNames.mp hm))
      (pairwise_sortNames h.2)

theorem mem_sortParticipants {a : String} {cl dl : List String} :
    a ∈ sortParticipants cl dl ↔ a ∈ cl ∨ a ∈ dl := by
  simp [sortParticipants, mem_sortNames, List.mem_dedup, List.mem_append]

theorem pairwise_sortParticipants (cl dl : List String) :
    (sortParticipants cl dl).Pairwise (fun a b => strLt a b = true) :=
  pairwise_sortNames (List.nodup_dedup _)

theorem nodup_sortParticipants (cl dl : List String) :
    (sortParticipants cl dl).Nodup :=
  (pairwise_sortParticipants cl dl).imp (fun h => ne_of_strLt h)

/-! ### Lemmas about the generated edges -/

theorem genEdgesA_mem {net : String → ℚ} {nm tow : ℚ} {de st : String} :
    ∀ {l : List String} {e : DebtEdge}, e ∈ genEdgesA net nm tow de st l →
      e.debtor ≠ ME_NAME ∧ e.creditor = ME_NAME ∧
        ∃ sh : ℚ, 1 / 100 < sh ∧ e.amount = pyRound2 sh
  | p :: rest, e, hm => by
    rw [genEdgesA] at hm
    split_ifs at hm with h1 h2 h3
    · exact genEdgesA_mem hm
    · rcases List.mem_cons.mp hm with he | hm
      · subst he
        exact ⟨h1, rfl, _, h3, rfl⟩
      · exact genEdgesA_mem hm
    · exact genEdgesA_mem hm
    · exact genEdgesA_mem hm

theorem genEdgesB_mem {net : String → ℚ} {nm tc : ℚ} {de st : String} :
    ∀ {l : List String} {e : DebtEdge}, e ∈ genEdgesB net nm tc de st l →
      e.debtor = ME_NAME ∧ e.creditor ≠ ME_NAME ∧
        ∃ sh : ℚ, 1 / 100 < sh ∧ e.amount = pyRound2 sh
  | p :: rest, e, hm => by
    rw [genEdgesB] at hm
    split_ifs at hm with h1 h2 h3
    · exact genEdgesB_mem hm
    · rcases List.mem_cons.mp hm with he | hm
      · subst he
        exact ⟨rfl, h1, _, h3, rfl⟩
      · exact genEdgesB_mem hm
    · exact genEdgesB_mem hm
    · exact genEdgesB_mem hm

theorem genEdgesA_counterpart_sublist {net : String → ℚ} {nm tow : ℚ}
    {de st : String} : ∀ l : List String,
      List.Sublist ((genEdgesA net nm tow de st l).map counterpart) l
  | [] => List.Sublist.slnil
  | p :: rest => by
    rw [genEdgesA]
    split_ifs with h1 h2 h3
    · exact (genEdgesA_counterpart_sublist rest).cons p
    · rw [List.map_cons]
      have hc : counterpart ⟨p, ME_NAME, pyRound2 (nm * (-net p / tow)), de, st⟩ = p := by
        simp [counterpart, h1]
      rw [hc]
      exact (genEdgesA_counterpart_sublist rest).cons₂ p
    · exact (genEdgesA_counterpart_sublist rest).cons p
    · exact (genEdgesA_counterpart_sublist rest).cons p

theorem genEdgesB_counterpart_sublist {net : String → ℚ} {nm tc : ℚ}
    {de st : String} : ∀ l : List String,
      List.Sublist ((genEdgesB net nm tc de st l).map counterpart) l
  | [] => List.Sublist.slnil
  | p :: rest => by
    rw [genEdgesB]
    split_ifs with h1 h2 h3
    · exact (genEdgesB_counterpart_sublist rest).cons p
    · rw [List.map_cons]
      have hc : counterpart ⟨ME_NAME, p, pyRound2 (-nm * (net p / tc)), de, st⟩ = p := by
        simp [counterpart]
      rw [hc]
      exact (genEdgesB_counterpart_sublist rest).cons₂ p
    · exact (genEdgesB_counterpart_sublist rest).cons p
    · exact (genEdgesB_counterpart_sublist rest).cons p

theorem ratFloor_eq_floor (x : ℚ) : ratFloor x = ⌊x⌋ := Rat.floor_def.symm

theorem one_le_roundHalfEven {y : ℚ} (h : 1 < y) : 1 ≤ roundHalfEven y := by
  have h1 : (1 : ℤ) ≤ ratFloor y := by
    rw [ratFloor_eq_floor]
    exact Int.le_floor.mpr (by exact_mod_cast h.le)
  simp only [roundHalfEven]
  split_ifs <;> omega

theorem pyRound2_ge {x : ℚ} (h : 1 / 100 < x) : 1 / 100 ≤ pyRound2 x := by
  have h100 : (1 : ℚ) < x * 100 := by linarith
  have hr : (1 : ℤ) ≤ roundHalfEven (x * 100) := one_le_roundHalfEven h100
  have hr' : (1 : ℚ) ≤ (roundHalfEven (x * 100) : ℚ) := by exact_mod_cast hr
  rw [pyRound2]
  linarith

/-! ### Shape of a successful run -/

theorem settle_shape {P : List String} {fair : String → Option ℚ}
    {paid : String → ℚ} {de st : String} {r : RGDResult} {es : List DebtEdge}
    (h : settleStage P fair paid de st = (r, es)) :
    es = [] ∨
      es = genEdgesA (netFun fair paid) (netFun fair paid ME_NAME)
        (owingSum P (netFun fair paid)) de st P ∨
      es = genEdgesB (netFun fair paid) (netFun fair paid ME_NAME)
        (creditSum P (netFun fair paid)) de st P := by
  simp only [settleStage] at h
  split_ifs at h <;>
    first
      | exact Or.inl (congrArg Prod.snd h).symm
      | exact Or.inr (Or.inl (congrArg Prod.snd h).symm)
      | exact Or.inr (Or.inr (congrArg Prod.snd h).symm)

theorem settle_success {P : List String} {fair : String → Option ℚ}
    {paid : String → ℚ} {de st : String} {r : RGDResult} {es : List DebtEdge}
    (h : settleStage P fair paid de st = (r, es)) (hne : es ≠ []) :
    r = .success es.length := by
  simp only [settleStage] at h
  split_ifs at h <;> injection h with h1 h2 <;> subst h2 <;>
    first
      | exact absurd rfl hne
      | exact h1.symm

theorem run_ok_shape {creditors debtors : String} {total_amount : ℚ}
    {description status split_mode fair_shares paid_shares : String}
    {r : RGDResult} {es : List DebtEdge}
    (h : recordGroupDebts creditors debtors total_amount description status
      split_mode fair_shares paid_shares = .ok (r, es)) :
    es = [] ∨
      ∃ (fair : String → Option ℚ) (paid : String → ℚ),
        settleStage (sortParticipants (parseNames creditors)
          (parseNames debtors)) fair paid description status = (r, es) := by
  simp only [recordGroupDebts] at h
  split at h
  · split at h
    · exact absurd h (by simp)
    · injection h with h'
      exact Or.inl (congrArg Prod.snd h').symm
    · rename_i fair hfair
      split at h
      · exact absurd h (by simp)
      · rename_i paid hpaid
        injection h with h'
        exact Or.inr ⟨fair, paid, h'⟩
  · injection h with h'
    exact Or.inl (congrArg Prod.snd h').symm

/-! ### Characterization of the stages -/

theorem fairStage_equal {sm fs : String} {t : ℚ} {P : List String}
    (hsm : pyLower sm = "equal") (hP : P.length ≠ 0) :
    fairStage sm fs t P =
      .ok (.inr (fun p => if p ∈ P then some (t / (P.length : ℚ)) else none)) := by
  have hP' : (P.length : ℚ) ≠ 0 := Nat.cast_ne_zero.mpr hP
  simp only [fairStage, if_pos hsm, pyDiv, if_neg hP']

theorem fairStage_custom_empty {sm fs : String} {t : ℚ} {P : List String}
    (hsm : pyLower sm = "custom") (hfs : fs = "") :
    fairStage sm fs t P = .ok (.inl .errFairSharesRequired) := by
  have hne : pyLower sm ≠ "equal" := by rw [hsm]; decide
  simp only [fairStage, if_neg hne, if_pos hsm, if_pos hfs]

theorem fairStage_custom_parsed {sm fs : String} {t : ℚ} {P : List String}
    {d : String → Option ℚ} (hsm : pyLower sm = "custom") (hfs : fs ≠ "")
    (hd : parseSharesInto emptyDict (parseNames fs) = .ok d) :
    fairStage sm fs t P =
      match P.find? (fun p => (d p).isNone) with
      | some p => .ok (.inl (.errNoFairShare p))
      | none => .ok (.inr d) := by
  have hne : pyLower sm ≠ "equal" := by rw [hsm]; decide
  simp only [fairStage, if_neg hne, if_pos hsm, if_neg hfs, hd]

theorem fairStage_other {sm fs : String} {t : ℚ} {P : List String}
    (h1 : pyLower sm ≠ "equal") (h2 : pyLower sm ≠ "custom") :
    fairStage sm fs t P = .ok (.inl .errInvalidSplitMode) := by
  simp only [fairStage, if_neg h1, if_neg h2]

theorem paidStage_explicit {sm ps : String} {t : ℚ} {cl P : List String}
    {fair : String → Option ℚ} {d : String → Option ℚ} (hps : ps ≠ "")
    (hd : parseSharesInto emptyDict (parseNames ps) = .ok d) :
    paidStage sm ps t cl P fair = .ok (fun p => (d p).getD 0) := by
  simp only [paidStage, if_pos hps, hd]

theorem paidStage_equal_default {sm ps : String} {t : ℚ} {cl P : List String}
    {fair : String → Option ℚ} (hps : ps = "") (hsm : pyLower sm = "equal")
    (hcl : cl.length ≠ 0) :
    paidStage sm ps t cl P fair =
      .ok (fun p => if p ∈ cl then t / (cl.length : ℚ) else 0) := by
  subst hps
  have hcl' : (cl.length : ℚ) ≠ 0 := Nat.cast_ne_zero.mpr hcl
  simp only [paidStage, ne_eq, not_true_eq_false, if_false, if_pos hsm, pyDiv,
    if_neg hcl']

theorem paidStage_custom_default {sm ps : String} {t : ℚ} {cl P : List String}
    {fair : String → Option ℚ} (hps : ps = "") (hsm : pyLower sm ≠ "equal") :
    paidStage sm ps t cl P fair =
      .ok (fun p => if p ∈ P then (fair p).getD 0 else 0) := by
  subst hps
  simp only [paidStage, ne_eq, not_true_eq_false, if_false, if_neg hsm]

theorem run_notInvolved {c d : String} {t : ℚ} {de st sm fs ps : String}
    (hme : ME_NAME ∉ sortParticipants (parseNames c) (parseNames d)) :
    recordGroupDebts c d t de st sm fs ps = .ok (.notInvolved, []) := by
  simp only [recordGroupDebts, if_neg hme]

theorem run_validation {c d : String} {t : ℚ} {de st sm fs ps : String}
    {r : RGDResult}
    (hme : ME_NAME ∈ sortParticipants (parseNames c) (parseNames d))
    (hfair : fairStage sm fs t
      (sortParticipants (parseNames c) (parseNames d)) = .ok (.inl r)) :
    recordGroupDebts c d t de st sm fs ps = .ok (r, []) := by
  simp only [recordGroupDebts, if_pos hme, hfair]

theorem run_reaches_settle {c d : String} {t : ℚ} {de st sm fs ps : String}
    {fair : String → Option ℚ} {paid : String → ℚ}
    (hme : ME_NAME ∈ sortParticipants (parseNames c) (parseNames d))
    (hfair : fairStage sm fs t
      (sortParticipants (parseNames c) (parseNames d)) = .ok (.inr fair))
    (hpaid : paidStage sm ps t (parseNames c)
      (sortParticipants (parseNames c) (parseNames d)) fair = .ok paid) :
    recordGroupDebts c d t de st sm fs ps =
      .ok (settleStage (sortParticipants (parseNames c) (parseNames d))
        fair paid de st) := by
  simp only [recordGroupDebts, if_pos hme, hfair, hpaid]

theorem settle_already {P : List String} {fair : String → Option ℚ}
    {paid : String → ℚ} {de st : String}
    (h : |netFun fair paid ME_NAME| < 1 / 1000000) :
    settleStage P fair paid de st = (.alreadySettled, []) := by
  simp only [settleStage, if_pos h]

theorem netStage_some_inv {c d : String} {t : ℚ} {sm fs ps : String}
    {P : List String} {net : String → ℚ}
    (h : netStage c d t sm fs ps = some (P, net)) :
    ME_NAME ∈ sortParticipants (parseNames c) (parseNames d) ∧
    P = sortParticipants (parseNames c) (parseNames d) ∧
    ∃ (fair : String → Option ℚ) (paid : String → ℚ),
      fairStage sm fs t (sortParticipants (parseNames c) (parseNames d)) =
        .ok (.inr fair) ∧
      paidStage sm ps t (parseNames c)
        (sortParticipants (parseNames c) (parseNames d)) fair = .ok paid ∧
      net = netFun fair paid := by
  simp only [netStage] at h
  split at h
  · rename_i hme
    split at h
    · rename_i fair hfair
      split at h
      · rename_i paid hpaid
        injection h with h'
        injection h' with h1 h2
        exact ⟨hme, h1.symm, fair, paid, hfair, hpaid, h2.symm⟩
      · exact absurd h (by simp)
    · exact absurd h (by simp)
  · exact absurd h (by simp)

/-! ### The claims -/

/-- C1: every debt edge the engine emits (every `add_debt_tool` call
`record_group_debts` makes) has the self identity `Me` as exactly one
endpoint: either the debtor is `Me` and the creditor is another participant,
or the creditor is `Me` and the debtor is another participant; no edge
between two third parties and no self-loop edge is ever emitted. -/
theorem c1_self_only_edges {creditors debtors : String} {total_amount : ℚ}
    {description status split_mode fair_shares paid_shares : String}
    {r : RGDResult} {es : List DebtEdge}
    (h : recordGroupDebts creditors debtors total_amount description status
      split_mode fair_shares paid_shares = .ok (r, es)) :
    ∀ e ∈ es, selfOnlyEdge e := by
  intro e he
  rcases run_ok_shape h with rfl | ⟨fair, paid, hs⟩
  · exact absurd he (List.not_mem_nil e)
  · rcases settle_shape hs with rfl | rfl | rfl
    · exact absurd he (List.not_mem_nil e)
    · obtain ⟨hd, hc, _⟩ := genEdgesA_mem he
      exact Or.inr ⟨hc, hd⟩
    · obtain ⟨hd, hc, _⟩ := genEdgesB_mem he
      exact Or.inl ⟨hd, hc⟩

/-- Witness for C1 at a concrete input (spec scenario 1). -/
theorem c1_witness :
    recordGroupDebts "Me" "John, Sarah" 30 "trip" "unsettled" "equal" "" "" =
      .ok (.success 2, [⟨"John", "Me", 10, "trip", "unsettled"⟩,
        ⟨"Sarah", "Me", 10, "trip", "unsettled"⟩]) ∧
    selfOnlyEdge ⟨"John", "Me", 10, "trip", "unsettled"⟩ :=
  ⟨by decide,
   @c1_self_only_edges "Me" "John, Sarah" 30 "trip" "unsettled" "equal" "" ""
     (.success 2) [⟨"John", "Me", 10, "trip", "unsettled"⟩,
       ⟨"Sarah", "Me", 10, "trip", "unsettled"⟩]
     (by decide) ⟨"John", "Me", 10, "trip", "unsettled"⟩ (by decide)⟩

/-- C2, evaluation of the code at the failing input: with an empty creditors
string, `Me` among the debtors, split_mode `equal` and `paid_shares` omitted,
the code divides the total by `len(creditor_list) = 0` (tools.py line 208)
and raises `ZeroDivisionError` — there is no defaulting of the empty
creditor list to `[Me]` and no structured result. -/
theorem c2_empty_creditors_crash :
    recordGroupDebts "" "Me, John" 30 "dinner" "unsettled" "equal" "" "" =
      .error .zeroDivisionError := by decide

/-- C3 counterexample: a `fair_shares` entry without a colon makes the pair
unpacking at tools.py line 188 raise `ValueError`; the call terminates with
an uncaught fault, not a structured result string. -/
theorem c3_counterexample :
    recordGroupDebts "Me" "John" 100 "dinner" "unsettled" "custom" "Me" "" =
      .error (.valueError "Me") := by decide

/-- C3 amended: `record_group_debts` returns a structured result whenever
every entry of `fair_shares` and of `paid_shares` is a parsable
`name:number` pair AND, when `paid_shares` is omitted in `equal` mode, the
creditor list is non-empty; outside these conditions it can raise
`ValueError` (colonless or non-numeric pair) or `ZeroDivisionError` (empty
creditor list in the equal-mode payment default). -/
theorem c3_amended_no_fault {creditors debtors : String} {total_amount : ℚ}
    {description status split_mode fair_shares paid_shares : String}
    (hf : (parseSharesInto emptyDict (parseNames fair_shares)).isOk = true)
    (hp : (parseSharesInto emptyDict (parseNames paid_shares)).isOk = true)
    (hcl : paid_shares = "" → pyLower split_mode = "equal" →
      parseNames creditors ≠ []) :
    (recordGroupDebts creditors debtors total_amount description status
      split_mode fair_shares paid_shares).isOk = true := by
  cases hdf : parseSharesInto emptyDict (parseNames fair_shares) with
  | error e => rw [hdf] at hf; exact absurd hf (by simp [Except.isOk, Except.toBool])
  | ok df =>
  cases hdp : parseSharesInto emptyDict (parseNames paid_shares) with
  | error e => rw [hdp] at hp; exact absurd hp (by simp [Except.isOk, Except.toBool])
  | ok dp =>
  by_cases hme : ME_NAME ∈ sortParticipants (parseNames creditors)
    (parseNames debtors)
  case neg => rw [run_notInvolved hme]; rfl
  have hPne : (sortParticipants (parseNames creditors)
      (parseNames debtors)).length ≠ 0 := by
    intro h0
    rw [List.length_eq_zero] at h0
    rw [h0] at hme
    exact absurd hme (List.not_mem_nil _)
  by_cases hsm : pyLower split_mode = "equal"
  · have hfair := @fairStage_equal split_mode fair_shares total_amount
      (sortParticipants (parseNames creditors) (parseNames debtors)) hsm hPne
    by_cases hps : paid_shares = ""
    · have hclne : (parseNames creditors).length ≠ 0 := by
        intro h0
        exact hcl hps hsm (List.length_eq_zero.mp h0)
      rw [run_reaches_settle hme hfair (paidStage_equal_default hps hsm hclne)]
      rfl
    · rw [run_reaches_settle hme hfair (paidStage_explicit hps hdp)]
      rfl
  · by_cases hsc : pyLower split_mode = "custom"
    · by_cases hfs : fair_shares = ""
      · rw [run_validation hme (fairStage_custom_empty hsc hfs)]
        rfl
      · have hfair := @fairStage_custom_parsed split_mode fair_shares
          total_amount
          (sortParticipants (parseNames creditors) (parseNames debtors)) df
          hsc hfs hdf
        cases hfind : (sortParticipants (parseNames creditors)
            (parseNames debtors)).find? (fun p => (df p).isNone) with
        | some q =>
          have hfair' : fairStage split_mode fair_shares total_amount
              (sortParticipants (parseNames creditors) (parseNames debtors)) =
              .ok (.inl (.errNoFairShare q)) := by
            rw [hfair, hfind]
          rw [run_validation hme hfair']
          rfl
        | none =>
          have hfair' : fairStage split_mode fair_shares total_amount
              (sortParticipants (parseNames creditors) (parseNames debtors)) =
              .ok (.inr df) := by
            rw [hfair, hfind]
          by_cases hps : paid_shares = ""
          · rw [run_reaches_settle hme hfair'
              (paidStage_custom_default hps hsm)]
            rfl
          · rw [run_reaches_settle hme hfair' (paidStage_explicit hps hdp)]
            rfl
    · rw [run_validation hme (fairStage_other hsm hsc)]
      rfl

/-- Witness for C3's amended theorem at a concrete input. -/
theorem c3_witness :
    (parseSharesInto emptyDict (parseNames "")).isOk = true ∧
    ("" = "" → pyLower "equal" = "equal" → parseNames "Me" ≠ []) ∧
    (recordGroupDebts "Me" "John, Sarah" 30 "trip" "unsettled" "equal" ""
      "").isOk = true :=
  ⟨by decide, by decide,
   @c3_amended_no_fault "Me" "John, Sarah" 30 "trip" "unsettled" "equal" "" ""
     (by decide) (by decide) (by decide)⟩

/-- C4 counterexample: the source normalizer performs no case
canonicalization — the creditor token `me` is not recognized as the self
identity, so the call returns the `NotInvolved` result even though the
creditors spell the self identity in lowercase (the claim says such a call
is treated as involving SELF and does not return NotInvolved). -/
theorem c4_counterexample :
    recordGroupDebts "me" "John" 30 "dinner" "unsettled" "equal" "" "" =
      .ok (.notInvolved, []) := by decide

/-- C4 amended: the normalizer only trims whitespace and drops empty tokens;
there is no case canonicalization. Self participation requires some token to
be exactly `Me`: whenever no creditor token and no debtor token is exactly
`Me`, the call returns `NotInvolved` with no edges — any other spelling of
the self identity (`me`, `ME`, `mE`) is an ordinary third-party name. -/
theorem c4_amended_exact_match {creditors debtors : String} {total_amount : ℚ}
    {description status split_mode fair_shares paid_shares : String}
    (hc : ME_NAME ∉ parseNames creditors) (hd : ME_NAME ∉ parseNames debtors) :
    recordGroupDebts creditors debtors total_amount description status
      split_mode fair_shares paid_shares = .ok (.notInvolved, []) := by
  apply run_notInvolved
  intro hmem
  rcases mem_sortParticipants.mp hmem with h | h
  · exact hc h
  · exact hd h

/-- Witness for C4's amended theorem at a concrete input. -/
theorem c4_witness :
    ME_NAME ∉ parseNames "ME, mE" ∧ ME_NAME ∉ parseNames "John" ∧
    recordGroupDebts "ME, mE" "John" 25 "x" "unsettled" "equal" "" "" =
      .ok (.notInvolved, []) :=
  ⟨by decide, by decide,
   @c4_amended_exact_match "ME, mE" "John" 25 "x" "unsettled" "equal" "" ""
     (by decide) (by decide)⟩

/-- C5 counterexample: with proportional share 0.012 the guard
`share > 0.01` passes but `round(share, 2) = 0.01`, so an edge with amount
exactly 0.01 — NOT strictly greater than 0.01 — is emitted (the claim says
every emitted amount is strictly greater than 0.01 after rounding). -/
theorem c5_counterexample :
    recordGroupDebts "Me" "John" (3 / 125) "snack" "unsettled" "equal" "" "" =
      .ok (.success 1, [⟨"John", "Me", 1 / 100, "snack", "unsettled"⟩]) ∧
    ¬ ((1 : ℚ) / 100 < 1 / 100) :=
  ⟨by decide, by decide⟩

/-- C5 amended: the 0.01 threshold is applied to the UNROUNDED proportional
share; every emitted edge has amount `round(share, 2)` for some share
strictly above 0.01, hence amount at least 0.01 — but the amount itself can
equal exactly 0.01, so `amount > 0.01` fails in general. -/
theorem c5_amended_amount_lower_bound {creditors debtors : String}
    {total_amount : ℚ}
    {description status split_mode fair_shares paid_shares : String}
    {r : RGDResult} {es : List DebtEdge}
    (h : recordGroupDebts creditors debtors total_amount description status
      split_mode fair_shares paid_shares = .ok (r, es)) :
    ∀ e ∈ es, 1 / 100 ≤ e.amount := by
  intro e he
  rcases run_ok_shape h with rfl | ⟨fair, paid, hs⟩
  · exact absurd he (List.not_mem_nil e)
  · rcases settle_shape hs with rfl | rfl | rfl
    · exact absurd he (List.not_mem_nil e)
    · obtain ⟨_, _, sh, hsh, ham⟩ := genEdgesA_mem he
      rw [ham]
      exact pyRound2_ge hsh
    · obtain ⟨_, _, sh, hsh, ham⟩ := genEdgesB_mem he
      rw [ham]
      exact pyRound2_ge hsh

/-- Witness for C5's amended theorem at a concrete input. -/
theorem c5_witness :
    recordGroupDebts "Me" "John" (3 / 125) "bite" "unsettled" "equal" "" "" =
      .ok (.success 1, [⟨"John", "Me", 1 / 100, "bite", "unsettled"⟩]) ∧
    (1 : ℚ) / 100 ≤ DebtEdge.amount ⟨"John", "Me", 1 / 100, "bite", "unsettled"⟩ :=
  ⟨by decide,
   @c5_amended_amount_lower_bound "Me" "John" (3 / 125) "bite" "unsettled"
     "equal" "" "" (.success 1) [⟨"John", "Me", 1 / 100, "bite", "unsettled"⟩]
     (by decide) ⟨"John", "Me", 1 / 100, "bite", "unsettled"⟩ (by decide)⟩

/-- C6 counterexample: the engine discards `add_debt_tool`'s returned
string. With the database failing the only sink call (`dbOk` false for every
call, so nothing is persisted — `persistedEdges` is empty), the call still
returns the success summary counting that very edge: the persistence failure
is not surfaced as a failure result, and the reported count includes a failed
sink call. -/
theorem c6_counterexample :
    recordGroupDebts "Me" "John" 30 "taxi" "unsettled" "equal" "" "" =
      .ok (.success 1, [⟨"John", "Me", 15, "taxi", "unsettled"⟩]) ∧
    persistedEdges (fun _ => false)
      [⟨"John", "Me", 15, "taxi", "unsettled"⟩] = [] :=
  ⟨by decide, by decide⟩

/-- C6 amended: `record_group_debts` never inspects the sink's result
(`add_debt_tool`'s return string is discarded at tools.py lines 240-247 and
261-268, and the tool itself catches every exception): whenever edges are
emitted, the call returns a success summary whose count equals the number of
ATTEMPTED sink calls, regardless of how many were actually persisted. -/
theorem c6_amended_count_attempts {creditors debtors : String}
    {total_amount : ℚ}
    {description status split_mode fair_shares paid_shares : String}
    {r : RGDResult} {es : List DebtEdge}
    (h : recordGroupDebts creditors debtors total_amount description status
      split_mode fair_shares paid_shares = .ok (r, es)) (hne : es ≠ []) :
    r = .success es.length := by
  rcases run_ok_shape h with rfl | ⟨fair, paid, hs⟩
  · exact absurd rfl hne
  · exact settle_success hs hne

/-- Witness for C6's amended theorem at a concrete input. -/
theorem c6_witness :
    recordGroupDebts "Me" "John" 40 "cab" "unsettled" "equal" "" "" =
      .ok (.success 1, [⟨"John", "Me", 20, "cab", "unsettled"⟩]) ∧
    ([⟨"John", "Me", 20, "cab", "unsettled"⟩] : List DebtEdge) ≠ [] ∧
    RGDResult.success 1 =
      .success ([⟨"John", "Me", 20, "cab", "unsettled"⟩] : List DebtEdge).length :=
  ⟨by decide, by decide,
   @c6_amended_count_attempts "Me" "John" 40 "cab" "unsettled" "equal" "" ""
     (.success 1) [⟨"John", "Me", 20, "cab", "unsettled"⟩]
     (by decide) (by decide)⟩

/-- C9: for every input that passes normalization and share validation and
reaches the net-position stage (modelled by `netMeOf` returning the self
identity's net position), if |net Me| < 1e-6 then `record_group_debts`
returns the informational AlreadySettled result, emits no edges, and makes
no persistence call. -/
theorem c9_already_settled {creditors debtors : String} {total_amount : ℚ}
    {description status split_mode fair_shares paid_shares : String} {m : ℚ}
    (hm : netMeOf creditors debtors total_amount split_mode fair_shares
      paid_shares = some m)
    (heps : |m| < 1 / 1000000) :
    recordGroupDebts creditors debtors total_amount description status
      split_mode fair_shares paid_shares = .ok (.alreadySettled, []) := by
  rw [netMeOf, Option.map_eq_some'] at hm
  obtain ⟨⟨P, net⟩, hns, hfm⟩ := hm
  obtain ⟨hme, hP, fair, paid, hfair, hpaid, hnet⟩ := netStage_some_inv hns
  have hcond : |netFun fair paid ME_NAME| < 1 / 1000000 := by
    have hval : netFun fair paid ME_NAME = m := by
      rw [← hnet]
      exact hfm
    rw [hval]
    exact heps
  rw [run_reaches_settle hme hfair hpaid,
    @settle_already _ fair paid description status hcond]

/-- Witness for C9 at a concrete input (spec scenario 3). -/
theorem c9_witness :
    netMeOf "Me" "John" 100 "custom" "Me:60, John:40" "" = some 0 ∧
    |(0 : ℚ)| < 1 / 1000000 ∧
    recordGroupDebts "Me" "John" 100 "lunch" "unsettled" "custom"
      "Me:60, John:40" "" = .ok (.alreadySettled, []) :=
  ⟨by decide, by decide,
   @c9_already_settled "Me" "John" 100 "lunch" "unsettled" "custom"
     "Me:60, John:40" "" 0 (by decide) (by decide)⟩

/-- C10: for every call that emits edges, at most one edge is emitted per
counterpart participant, and the sink calls are made in strictly increasing
lexicographic order of the counterpart participant's name, because the
deduplicated participant set is sorted before the allocation loop iterates
over it. -/
theorem c10_sorted_sink_calls {creditors debtors : String} {total_amount : ℚ}
    {description status split_mode fair_shares paid_shares : String}
    {r : RGDResult} {es : List DebtEdge}
    (h : recordGroupDebts creditors debtors total_amount description status
      split_mode fair_shares paid_shares = .ok (r, es)) :
    sortedByCounterpart es := by
  rcases run_ok_shape h with rfl | ⟨fair, paid, hs⟩
  · exact List.Pairwise.nil
  · rcases settle_shape hs with rfl | rfl | rfl
    · exact List.Pairwise.nil
    · exact (pairwise_sortParticipants _ _).sublist
        (genEdgesA_counterpart_sublist _)
    · exact (pairwise_sortParticipants _ _).sublist
        (genEdgesB_counterpart_sublist _)

/-- Witness for C10 at a concrete input: the debtors argument lists Sarah
before John, yet the sink calls happen in order John, then Sarah. -/
theorem c10_witness :
    recordGroupDebts "Me" "Sarah, John" 30 "trip" "unsettled" "equal" "" "" =
      .ok (.success 2, [⟨"John", "Me", 10, "trip", "unsettled"⟩,
        ⟨"Sarah", "Me", 10, "trip", "unsettled"⟩]) ∧
    sortedByCounterpart [⟨"John", "Me", 10, "trip", "unsettled"⟩,
      ⟨"Sarah", "Me", 10, "trip", "unsettled"⟩] :=
  ⟨by decide,
   @c10_sorted_sink_calls "Me" "Sarah, John" 30 "trip" "unsettled" "equal"
     "" "" (.success 2) [⟨"John", "Me", 10, "trip", "unsettled"⟩,
       ⟨"Sarah", "Me", 10, "trip", "unsettled"⟩] (by decide)⟩

/-! ### Sum lemmas for the zero-sum property -/

theorem list_sum_map_sub {α : Type} (l : List α) (f g : α → ℚ) :
    (l.map (fun x => f x - g x)).sum = (l.map f).sum - (l.map g).sum := by
  induction l with
  | nil => simp
  | cons a t ih =>
    simp only [List.map_cons, List.sum_cons, ih]
    ring

theorem list_sum_map_const_of {α : Type} (l : List α) (f : α → ℚ) (c : ℚ)
    (h : ∀ x ∈ l, f x = c) : (l.map f).sum = (l.length : ℚ) * c := by
  induction l with
  | nil => simp
  | cons a t ih =>
    simp only [List.map_cons, List.sum_cons, List.length_cons,
      h a (List.mem_cons_self a t),
      ih (fun x hx => h x (List.mem_cons_of_mem a hx))]
    push_cast
    ring

theorem nodup_sum_indicator (P cl : List String) (c : ℚ) (hP : P.Nodup)
    (hsub : ∀ x ∈ cl, x ∈ P) (hclnd : cl.Nodup) :
    (P.map (fun p => if p ∈ cl then c else 0)).sum = (cl.length : ℚ) * c := by
  rw [← List.sum_toFinset _ hP]
  have hiff : ∀ p : String, (if p ∈ cl then c else 0) =
      if p ∈ cl.toFinset then c else 0 := by
    intro p
    simp [List.mem_toFinset]
  simp_rw [hiff]
  rw [Finset.sum_ite_mem]
  have hsub' : cl.toFinset ⊆ P.toFinset := by
    intro x hx
    rw [List.mem_toFinset] at hx ⊢
    exact hsub x hx
  rw [Finset.inter_eq_right.mpr hsub', Finset.sum_const, List.card_toFinset,
    hclnd.dedup]
  simp [nsmul_eq_mul]

/-- C7 counterexample: with the duplicated creditor token list `"Me, Me"`,
`paid[c] = total/len(creditor_list)` (tools.py lines 208-210) is a dict
ASSIGNMENT, not an accumulation, so the recorded payments total 15 instead
of 30 and the net positions computed at the net stage sum to −15, far
outside the claimed 1e-6 tolerance. -/
theorem c7_counterexample :
    netSumOf "Me, Me" "John" 30 "equal" "" "" = some (-15) ∧
    ¬ (|(-15 : ℚ)| < 1 / 1000000) :=
  ⟨by decide, by decide⟩

/-- C7 amended: whenever `paid_shares` is omitted and the run reaches the
net-position stage, the net positions sum to zero exactly (hence within
1e-6) in both split modes, PROVIDED the parsed creditor token list contains
no duplicates; with duplicated creditor tokens the equal-mode payment
default undercounts the total paid and the sum can be nonzero. -/
theorem c7_amended_zero_sum {creditors debtors : String} {total_amount : ℚ}
    {split_mode fair_shares : String} {s : ℚ}
    (hnd : (parseNames creditors).Nodup)
    (hs : netSumOf creditors debtors total_amount split_mode fair_shares "" =
      some s) :
    s = 0 := by
  rw [netSumOf, Option.map_eq_some'] at hs
  obtain ⟨⟨P, net⟩, hns, hsum⟩ := hs
  obtain ⟨hme, hP, fair, paid, hfair, hpaid, hnet⟩ := netStage_some_inv hns
  subst hP
  subst hnet
  have hsum' : ((sortParticipants (parseNames creditors)
      (parseNames debtors)).map (netFun fair paid)).sum = s := hsum
  by_cases hsm : pyLower split_mode = "equal"
  · -- equal mode: fair is the indicator of P, paid the indicator of cl
    simp only [paidStage, ne_eq, not_true_eq_false, if_false, if_pos hsm,
      pyDiv] at hpaid
    split at hpaid
    · exact absurd hpaid (by simp)
    rename_i hclz
    injection hpaid with hpd
    split at hclz
    · exact absurd hclz (by simp)
    rename_i hclnz
    injection hclz with hclv
    subst hclv
    simp only [fairStage, if_pos hsm, pyDiv] at hfair
    split at hfair
    · exact absurd hfair (by simp)
    rename_i hPz
    injection hfair with hf1
    injection hf1 with hf2
    split at hPz
    · exact absurd hPz (by simp)
    rename_i hPnz
    injection hPz with hPv
    subst hPv
    have hfairval : ∀ p ∈ sortParticipants (parseNames creditors)
        (parseNames debtors), (fair p).getD 0 =
        total_amount / ((sortParticipants (parseNames creditors)
          (parseNames debtors)).length : ℚ) := by
      intro p hp
      rw [← hf2]
      simp [hp]
    have e1 : ((sortParticipants (parseNames creditors)
        (parseNames debtors)).map (netFun fair paid)).sum =
        ((sortParticipants (parseNames creditors)
          (parseNames debtors)).map paid).sum -
        ((sortParticipants (parseNames creditors)
          (parseNames debtors)).map (fun p => (fair p).getD 0)).sum := by
      have hx := list_sum_map_sub (sortParticipants (parseNames creditors)
        (parseNames debtors)) paid (fun p => (fair p).getD 0)
      simpa [netFun] using hx
    have e2 : ((sortParticipants (parseNames creditors)
        (parseNames debtors)).map (fun p => (fair p).getD 0)).sum =
        (((sortParticipants (parseNames creditors)
          (parseNames debtors)).length : ℚ)) *
          (total_amount / ((sortParticipants (parseNames creditors)
            (parseNames debtors)).length : ℚ)) :=
      list_sum_map_const_of _ _ _ hfairval
    have e3 : ((sortParticipants (parseNames creditors)
        (parseNames debtors)).map paid).sum =
        ((parseNames creditors).length : ℚ) *
          (total_amount / ((parseNames creditors).length : ℚ)) := by
      rw [← hpd]
      exact nodup_sum_indicator _ _ _
        (nodup_sortParticipants (parseNames creditors) (parseNames debtors))
        (fun x hx => mem_sortParticipants.mpr (Or.inl hx)) hnd
    have e4 : (((sortParticipants (parseNames creditors)
        (parseNames debtors)).length : ℚ)) *
        (total_amount / ((sortParticipants (parseNames creditors)
          (parseNames debtors)).length : ℚ)) = total_amount := by
      rw [mul_comm]
      exact div_mul_cancel₀ total_amount hPnz
    have e5 : ((parseNames creditors).length : ℚ) *
        (total_amount / ((parseNames creditors).length : ℚ)) =
        total_amount := by
      rw [mul_comm]
      exact div_mul_cancel₀ total_amount hclnz
    rw [e1, e2, e3, e4, e5] at hsum'
    linarith
  · -- custom (or any non-equal) mode with defaulted payments: paid = fair
    simp only [paidStage, ne_eq, not_true_eq_false, if_false,
      if_neg hsm] at hpaid
    injection hpaid with hpd
    have hzero : ∀ p ∈ sortParticipants (parseNames creditors)
        (parseNames debtors), netFun fair paid p = 0 := by
      intro p hp
      rw [netFun, ← hpd]
      simp [hp]
    have := list_sum_map_const_of _ _ 0 hzero
    rw [this] at hsum'
    rw [mul_zero] at hsum'
    exact hsum'.symm

/-- Witness for C7's amended theorem at a concrete input. -/
theorem c7_witness :
    (parseNames "Me").Nodup ∧
    netSumOf "Me" "John, Sarah" 30 "equal" "" "" = some 0 ∧ (0 : ℚ) = 0 :=
  ⟨by decide, by decide,
   @c7_amended_zero_sum "Me" "John, Sarah" 30 "equal" "" 0
     (by decide) (by decide)⟩

/-- The settlement stage never produces one of the validation-error results. -/
theorem settle_not_validation {P : List String} {fair : String → Option ℚ}
    {paid : String → ℚ} {de st : String} {r : RGDResult} {es : List DebtEdge}
    (h : settleStage P fair paid de st = (r, es)) :
    isValidationError r = false := by
  simp only [settleStage] at h
  split_ifs at h <;> (injection h with h1 h2; rw [← h1]; rfl)

/-- Once the fair stage has produced a share dict, the run can no longer end
in a validation-error outcome. -/
theorem run_settle_not_validation {c d : String} {t : ℚ}
    {de st sm fs ps : String} {fair : String → Option ℚ}
    (hme : ME_NAME ∈ sortParticipants (parseNames c) (parseNames d))
    (hfair : fairStage sm fs t
      (sortParticipants (parseNames c) (parseNames d)) = .ok (.inr fair)) :
    isValidationOutcome (recordGroupDebts c d t de st sm fs ps) = false := by
  cases hpd : paidStage sm ps t (parseNames c)
      (sortParticipants (parseNames c) (parseNames d)) fair with
  | error e =>
    have hrun : recordGroupDebts c d t de st sm fs ps = .error e := by
      simp only [recordGroupDebts, if_pos hme, hfair, hpd]
    rw [hrun]
    rfl
  | ok paid =>
    rcases hsp : settleStage (sortParticipants (parseNames c) (parseNames d))
      fair paid de st with ⟨r', es'⟩
    have hrun : recordGroupDebts c d t de st sm fs ps = .ok (r', es') := by
      rw [run_reaches_settle hme hfair hpd, hsp]
    rw [hrun]
    show (isValidationError r' && es'.isEmpty) = false
    rw [settle_not_validation hsp]
    rfl

/-- C8 counterexample: with split_mode `weird` (neither `equal` nor `custom`)
but the self identity absent from the participants, the source returns the
NotInvolved info result BEFORE any split-mode validation (tools.py line 172
precedes line 194): the claim's right-hand condition holds, yet the call
does not return a validation error, so the claimed "exactly when" fails. -/
theorem c8_counterexample :
    recordGroupDebts "John" "Sarah" 30 "gift" "unsettled" "weird" "" "" =
      .ok (.notInvolved, []) ∧
    isValidationOutcome (.ok (.notInvolved, [])) = false ∧
    pyLower "weird" ≠ "equal" ∧ pyLower "weird" ≠ "custom" :=
  ⟨by decide, rfl, by decide, by decide⟩

/-- C8 amended: PROVIDED the self identity is among the parsed participants
(the NotInvolved return precedes all validation) and the fair_shares spec
parses without fault into a dict `df`, `record_group_debts` returns a
validation error with no sink call made exactly when: split_mode (compared
case-insensitively) is neither `equal` nor `custom` (InvalidSplitMode); or
it is `custom` and fair_shares is the empty string (MissingShareSpec); or it
is `custom` and some participant in the participant set has no entry in the
parsed fair-share dict (IncompleteShareSpec naming the first such
participant). -/
theorem c8_amended_validation_iff {creditors debtors : String}
    {total_amount : ℚ}
    {description status split_mode fair_shares paid_shares : String}
    {df : String → Option ℚ}
    (hme : ME_NAME ∈ sortParticipants (parseNames creditors)
      (parseNames debtors))
    (hdf : parseSharesInto emptyDict (parseNames fair_shares) = .ok df) :
    isValidationOutcome (recordGroupDebts creditors debtors total_amount
      description status split_mode fair_shares paid_shares) = true ↔
    ((pyLower split_mode ≠ "equal" ∧ pyLower split_mode ≠ "custom") ∨
     (pyLower split_mode = "custom" ∧ (fair_shares = "" ∨
       (sortParticipants (parseNames creditors) (parseNames debtors)).any
         (missingShare df) = true))) := by
  have hPne : (sortParticipants (parseNames creditors)
      (parseNames debtors)).length ≠ 0 := by
    intro h0
    rw [List.length_eq_zero] at h0
    rw [h0] at hme
    exact absurd hme (List.not_mem_nil _)
  constructor
  · intro hvo
    by_cases heq : pyLower split_mode = "equal"
    · exfalso
      have hfair := @fairStage_equal split_mode fair_shares total_amount
        (sortParticipants (parseNames creditors) (parseNames debtors))
        heq hPne
      rw [run_settle_not_validation hme hfair] at hvo
      exact absurd hvo (by simp)
    · by_cases hcu : pyLower split_mode = "custom"
      · by_cases hfs : fair_shares = ""
        · exact Or.inr ⟨hcu, Or.inl hfs⟩
        · cases hq : (sortParticipants (parseNames creditors)
              (parseNames debtors)).find? (fun p => (df p).isNone) with
          | some q =>
            refine Or.inr ⟨hcu, Or.inr ?_⟩
            rw [List.any_eq_true]
            exact ⟨q, List.mem_of_find?_eq_some hq, List.find?_some hq⟩
          | none =>
            exfalso
            have hfair' : fairStage split_mode fair_shares total_amount
                (sortParticipants (parseNames creditors)
                  (parseNames debtors)) = .ok (.inr df) := by
              rw [@fairStage_custom_parsed split_mode fair_shares total_amount
                (sortParticipants (parseNames creditors) (parseNames debtors))
                df hcu hfs hdf, hq]
            rw [run_settle_not_validation hme hfair'] at hvo
            exact absurd hvo (by simp)
      · exact Or.inl ⟨heq, hcu⟩
  · rintro (⟨h1, h2⟩ | ⟨hcu, hrest⟩)
    · rw [run_validation hme (fairStage_other h1 h2)]
      rfl
    · by_cases hfs : fair_shares = ""
      · rw [run_validation hme (fairStage_custom_empty hcu hfs)]
        rfl
      · rcases hrest with hfs' | hany
        · exact absurd hfs' hfs
        · rw [List.any_eq_true] at hany
          obtain ⟨p, hp, hpnone⟩ := hany
          cases hq : (sortParticipants (parseNames creditors)
              (parseNames debtors)).find? (fun p => (df p).isNone) with
          | none =>
            exfalso
            rw [List.find?_eq_none] at hq
            exact hq p hp hpnone
          | some q =>
            have hfair' : fairStage split_mode fair_shares total_amount
                (sortParticipants (parseNames creditors)
                  (parseNames debtors)) = .ok (.inl (.errNoFairShare q)) := by
              rw [@fairStage_custom_parsed split_mode fair_shares total_amount
                (sortParticipants (parseNames creditors) (parseNames debtors))
                df hcu hfs hdf, hq]
            rw [run_validation hme hfair']
            rfl

/-- Witness for C8's amended theorem at a concrete input: custom mode with an
empty fair_shares spec is a validation outcome. -/
theorem c8_witness :
    ME_NAME ∈ sortParticipants (parseNames "Me") (parseNames "John") ∧
    parseSharesInto emptyDict (parseNames "") = .ok emptyDict ∧
    (isValidationOutcome (recordGroupDebts "Me" "John" 30 "gift" "unsettled"
      "custom" "" "") = true ↔
     ((pyLower "custom" ≠ "equal" ∧ pyLower "custom" ≠ "custom") ∨
      (pyLower "custom" = "custom" ∧ ("" = "" ∨
        (sortParticipants (parseNames "Me") (parseNames "John")).any
          (missingShare emptyDict) = true)))) :=
  ⟨by decide, rfl,
   @c8_amended_validation_iff "Me" "John" 30 "gift" "unsettled" "custom" "" ""
     emptyDict (by decide) rfl⟩
